import Mathlib

/-!
Verification development for the SVG Builder repository's document
simplification engine (`SvgCleaner` in `src/js/svgParser.js`), the path
capture tool (`Tools` in `src/js/tools.js`) and the id generator
(`Utils.generateId`).  The DOM element tree is embedded as a rose tree
with element, text and comment nodes; each cleaning pass of
`SvgCleaner.cleanSvg` is translated into a pure function on that tree.
-/

/-- The SVG namespace URI, as in `SvgCleaner.removeNonSvgElements`. -/
def svgNamespace : String := "http://www.w3.org/2000/svg"

mutual

/-- A DOM node: an element (namespace URI, tag name, attribute list in
document order, children), a text node, or a comment node. -/
inductive XNode where
  | elem (ns tag : String) (attrs : List (String × String)) (children : XNodes)
  | text (s : String)
  | comment (s : String)
deriving DecidableEq

/-- A sibling list of DOM nodes (the `childNodes` of an element). -/
inductive XNodes where
  | nil
  | cons (hd : XNode) (tl : XNodes)
deriving DecidableEq

end

/-- Concatenation of sibling lists. -/
def XNodes.append : XNodes → XNodes → XNodes
  | .nil, r => r
  | .cons n t, r => .cons n (XNodes.append t r)

instance : Append XNodes := ⟨XNodes.append⟩

/-- Whether some node of the list satisfies `p` (top level only). -/
def XNodes.any (p : XNode → Bool) : XNodes → Bool
  | .nil => false
  | .cons n t => p n || XNodes.any p t

/-- True for element nodes (`nodeType === Node.ELEMENT_NODE`). -/
def XNode.isElem : XNode → Bool
  | .elem _ _ _ _ => true
  | _ => false

/-- True for comment nodes. -/
def XNode.isComment : XNode → Bool
  | .comment _ => true
  | _ => false

/-- Namespace URI of a node (empty for non-elements). -/
def XNode.nsOf : XNode → String
  | .elem ns _ _ _ => ns
  | _ => ""

/-- Tag name of a node (empty for non-elements). -/
def XNode.tagOf : XNode → String
  | .elem _ tag _ _ => tag
  | _ => ""

/-- Attribute list of a node. -/
def XNode.attrsOf : XNode → List (String × String)
  | .elem _ _ attrs _ => attrs
  | _ => []

/-- Children of a node. -/
def XNode.childrenOf : XNode → XNodes
  | .elem _ _ _ cs => cs
  | _ => .nil

/-- Replace the children of an element node. -/
def XNode.withChildren : XNode → XNodes → XNode
  | .elem ns tag attrs _, cs => .elem ns tag attrs cs
  | n, _ => n

/-- First value bound to attribute `name` (DOM `getAttribute`, `none`
when the attribute is absent). -/
def getAttr (attrs : List (String × String)) (name : String) : Option String :=
  match attrs with
  | [] => none
  | (k, v) :: t => if k = name then some v else getAttr t name

/-- DOM `setAttribute`: overwrite an existing attribute in place, or
append a fresh one at the end of the attribute list. -/
def setAttr (attrs : List (String × String)) (name v : String) :
    List (String × String) :=
  if attrs.any (fun p => p.1 = name) then
    attrs.map (fun p => if p.1 = name then (name, v) else p)
  else attrs ++ [(name, v)]

/-- The `id` value held by an attribute list, or `""` (DOM `element.id`). -/
def idAttr (attrs : List (String × String)) : String :=
  (getAttr attrs "id").getD ""

/-- DOM `element.id`: the value of the `id` attribute, or `""`. -/
def XNode.idOf (n : XNode) : String := idAttr n.attrsOf

/-- Lift a predicate on an element's namespace, tag and attributes to a
node predicate (false on text and comment nodes). -/
def elemP (q : String → String → List (String × String) → Bool) : XNode → Bool
  | .elem ns tag attrs _ => q ns tag attrs
  | _ => false

/-- JavaScript whitespace class `\\s` (ASCII part). -/
def isWsChar (c : Char) : Bool :=
  c = ' ' || c = '\t' || c = '\n' || c = '\r' || c = '\x0b' || c = '\x0c'

/-- JavaScript `String.prototype.trim` on a character list. -/
def trimChars (l : List Char) : List Char :=
  ((l.dropWhile isWsChar).reverse.dropWhile isWsChar).reverse

/-- The content test of `removeEmptyGroups` / `removeEmptyElements`: a
child that is an element, or a text node whose `textContent.trim()` is
non-empty. -/
def contentChild : XNode → Bool
  | .elem _ _ _ _ => true
  | .text s => decide (trimChars s.data ≠ [])
  | .comment _ => false

/-- The `hasContent` of a child list. -/
def hasContent (cs : XNodes) : Bool := cs.any contentChild

/-- The fixed `significantAttrs` list of `removeEmptyElements`. -/
def significantAttrs : List String :=
  ["d", "points", "x", "y", "width", "height", "r", "cx", "cy",
   "x1", "y1", "x2", "y2"]

/-- The `hasSignificantAttrs`: the element carries at least one
geometry-significant attribute. -/
def hasSignificantAttrs (attrs : List (String × String)) : Bool :=
  significantAttrs.any (fun a => (getAttr attrs a).isSome)

mutual

/-- Remove, at every depth below the root, the nodes satisfying `drop`;
a dropped node disappears with its whole subtree, a kept element keeps
its attributes and is pruned recursively.  Each of the four removal
passes of `SvgCleaner` decides `drop` on the original node, and only
ever removes nodes that have no element children, so a single sweep in
document order is equivalent to this recursion. -/
def pruneNode (drop : XNode → Bool) : XNode → XNode
  | .elem ns tag attrs cs => .elem ns tag attrs (pruneForest drop cs)
  | n => n

/-- List form of `pruneNode`. -/
def pruneForest (drop : XNode → Bool) : XNodes → XNodes
  | .nil => .nil
  | .cons n t =>
      if drop n then pruneForest drop t
      else .cons (pruneNode drop n) (pruneForest drop t)

end

/-- Drop test of `SvgCleaner.removeEmptyGroups`: a `g` element with no
element child and no non-blank text child. -/
def dropEmptyGroup (n : XNode) : Bool :=
  n.isElem && n.tagOf = "g" && !hasContent n.childrenOf

/-- The `SvgCleaner.removeEmptyGroups` (the root is exempt: the pass walks
`getElementsByTagName`, which never returns the root itself). -/
def removeEmptyGroups (root : XNode) : XNode :=
  root.withChildren (pruneForest dropEmptyGroup root.childrenOf)

/-- Drop test of `SvgCleaner.removeEmptyElements`: an element with no
content child and no significant attribute. -/
def dropEmptyElement (n : XNode) : Bool :=
  n.isElem && !hasContent n.childrenOf && !hasSignificantAttrs n.attrsOf

/-- The `SvgCleaner.removeEmptyElements` (the traversal skips the root). -/
def removeEmptyElements (root : XNode) : XNode :=
  root.withChildren (pruneForest dropEmptyElement root.childrenOf)

/-- The `SvgCleaner.removeComments`. -/
def removeComments (root : XNode) : XNode :=
  root.withChildren (pruneForest XNode.isComment root.childrenOf)

/-- Drop test of `SvgCleaner.removeNonSvgElements`: an element whose
namespace URI differs from the SVG namespace. -/
def dropNonSvg (n : XNode) : Bool :=
  n.isElem && n.nsOf ≠ svgNamespace

/-- The `SvgCleaner.removeNonSvgElements` (the root is exempt). -/
def removeNonSvgElements (root : XNode) : XNode :=
  root.withChildren (pruneForest dropNonSvg root.childrenOf)

/-- XML attribute-value escaping of one character, as performed by
`XMLSerializer` inside `SvgParser.svgToString`. -/
def escAttrChar (c : Char) : List Char :=
  if c = '&' then "&amp;".data
  else if c = '<' then "&lt;".data
  else if c = '"' then "&quot;".data
  else [c]

/-- Attribute-value escaping of a character list. -/
def escAttr : List Char → List Char
  | [] => []
  | c :: t => escAttrChar c ++ escAttr t

/-- XML text escaping of one character. -/
def escTextChar (c : Char) : List Char :=
  if c = '&' then "&amp;".data
  else if c = '<' then "&lt;".data
  else if c = '>' then "&gt;".data
  else [c]

/-- Text escaping of a character list. -/
def escText : List Char → List Char
  | [] => []
  | c :: t => escTextChar c ++ escText t

/-- Serialized form of one attribute: a space, the name, `="`, the
escaped value and a closing quote. -/
def serAttr (p : String × String) : List Char :=
  ' ' :: p.1.data ++ '=' :: '"' :: escAttr p.2.data ++ ['"']

/-- Serialized form of an attribute list. -/
def serAttrs : List (String × String) → List Char
  | [] => []
  | p :: t => serAttr p ++ serAttrs t

mutual

/-- Serialization of a node, as produced by `XMLSerializer` in
`SvgParser.svgToString`; `pns` is the namespace of the enclosing
element, an `xmlns` declaration is emitted when the node's namespace
differs from it.  An element without children is self-closed. -/
def serNode (pns : String) : XNode → List Char
  | .elem ns tag attrs cs =>
      '<' :: tag.data
        ++ (if ns = pns then [] else ' ' :: "xmlns=\"".data ++ escAttr ns.data ++ ['"'])
        ++ serAttrs attrs
        ++ (match cs with
            | .nil => "/>".data
            | _ => '>' :: serForest ns cs ++ '<' :: '/' :: tag.data ++ ['>'])
  | .text s => escText s.data
  | .comment s => "<!--".data ++ s.data ++ "-->".data

/-- Serialization of a sibling list. -/
def serForest (pns : String) : XNodes → List Char
  | .nil => []
  | .cons n t => serNode pns n ++ serForest pns t

end

/-- The `SvgParser.svgToString` of a whole document element. -/
def svgToString (root : XNode) : List Char := serNode "" root

/-- Whether `needle` occurs as a prefix of `hay`. -/
def listPrefixOf : List Char → List Char → Bool
  | [], _ => true
  | _ :: _, [] => false
  | a :: xs, b :: ys => a = b && listPrefixOf xs ys

/-- JavaScript `String.prototype.includes`: `needle` occurs as a
contiguous substring of `hay`. -/
def containsSub (hay needle : List Char) : Bool :=
  listPrefixOf needle hay ||
    match hay with
    | [] => false
    | _ :: t => containsSub t needle

/-- The per-item keep test of `SvgCleaner.removeUnusedDefs`: an element
child of the `defs` container with a non-empty id is kept exactly when
`#id` occurs in the serialized document (`url(#id)` occurs only if
`#id` does, so the disjunction in the source collapses to this). -/
def keepDefsItem (s : List Char) (n : XNode) : Bool :=
  match n with
  | .elem _ _ attrs _ =>
      match getAttr attrs "id" with
      | some i => if i = "" then true else containsSub s ('#' :: i.data)
      | none => true
  | _ => true

/-- Filter the children of the `defs` container by `keepDefsItem`
(non-element children are untouched, as the source iterates
`defsElement.children`). -/
def filterDefsChildren (s : List Char) : XNodes → XNodes
  | .nil => .nil
  | .cons n t =>
      if keepDefsItem s n then .cons n (filterDefsChildren s t)
      else filterDefsChildren s t

/-- Whether the list contains an element node at top level
(`defsElement.children.length === 0` counts element children only). -/
def hasElemChild (cs : XNodes) : Bool := cs.any XNode.isElem

mutual

/-- Whether some node of the subtree satisfies `p`. -/
def occNode (p : XNode → Bool) : XNode → Bool
  | .elem ns tag attrs cs => p (.elem ns tag attrs cs) || occForest p cs
  | n => p n

/-- Whether some node of some subtree of the list satisfies `p`. -/
def occForest (p : XNode → Bool) : XNodes → Bool
  | .nil => false
  | .cons n t => occNode p n || occForest p t

end

/-- Whether an element with the given tag occurs in the forest. -/
def occTag (tag : String) (cs : XNodes) : Bool :=
  occForest (fun n => n.isElem && n.tagOf = tag) cs

/-- Element predicate selecting `defs` containers. -/
def defsP : String → String → List (String × String) → Bool :=
  fun _ tag _ => tag = "defs"

/-- Whether a `defs` element occurs in the forest, phrased through
`elemP` for the pruning lemmas. -/
def occDefs (cs : XNodes) : Bool := occForest (elemP defsP) cs

mutual

/-- Pre-order processing of `SvgCleaner.removeUnusedDefs` on one node:
the first `defs` element found has its identified, unreferenced element
children removed, and is itself removed (`none`) when no element child
remains; the boolean reports whether a `defs` was handled in this
subtree. -/
def rudNode (s : List Char) : XNode → Option XNode × Bool
  | .elem ns tag attrs cs =>
      if tag = "defs" then
        let kept := filterDefsChildren s cs
        if hasElemChild kept then (some (.elem ns tag attrs kept), true)
        else (none, true)
      else
        let r := rudForest s cs
        if r.2 then (some (.elem ns tag attrs r.1), true)
        else (some (.elem ns tag attrs cs), false)
  | n => (some n, false)

/-- Pre-order processing of `removeUnusedDefs` on a sibling list. -/
def rudForest (s : List Char) : XNodes → XNodes × Bool
  | .nil => (.nil, false)
  | .cons n t =>
      let r := rudNode s n
      if r.2 then
        (match r.1 with
         | some m => .cons m t
         | none => t, true)
      else
        let r2 := rudForest s t
        (.cons n r2.1, r2.2)

end

/-- The `SvgCleaner.removeUnusedDefs`: when the document holds at least one
`defs` element, the whole document is serialized once and the first
`defs` (in document order, the root excluded) is pruned against that
string; otherwise the pass is a no-op. -/
def removeUnusedDefs (root : XNode) : XNode :=
  if occTag "defs" root.childrenOf then
    root.withChildren (rudForest (svgToString root) root.childrenOf).1
  else root

/-- The deny test of `SvgCleaner.cleanAttributes`: exact names and
name-prefix patterns of the `unnecessaryAttrs` list. -/
def unnecessaryAttr (name : String) : Bool :=
  name = "data-name" || listPrefixOf "data-".data name.data ||
  name = "sketch:type" ||
  listPrefixOf "inkscape:".data name.data ||
  listPrefixOf "sodipodi:".data name.data ||
  name = "xmlns:xlink" || name = "xmlns:svg" || name = "xmlns:sodipodi" ||
  name = "xmlns:inkscape"

/-- Attribute filtering of `cleanAttributes`: remove deny-listed
attributes, and a `style` attribute whose trimmed value is empty. -/
def cleanAttrList (attrs : List (String × String)) : List (String × String) :=
  attrs.filter (fun p =>
    !(unnecessaryAttr p.1 || (p.1 = "style" && trimChars p.2.data = [])))

mutual

/-- The `cleanAttributes` on one node. -/
def cattrNode : XNode → XNode
  | .elem ns tag attrs cs => .elem ns tag (cleanAttrList attrs) (cattrForest cs)
  | n => n

/-- The `cleanAttributes` on a sibling list. -/
def cattrForest : XNodes → XNodes
  | .nil => .nil
  | .cons n t => .cons (cattrNode n) (cattrForest t)

end

/-- The `SvgCleaner.cleanAttributes`: the traversal starts at the root, so
the root's attributes are cleaned too. -/
def cleanAttributes (root : XNode) : XNode := cattrNode root

/-- The replacement `d.replace(/\s+/g, ' ')`: every maximal whitespace
run becomes a single space.  The boolean records whether the previous
character was whitespace. -/
def collapseWs (prevWs : Bool) : List Char → List Char
  | [] => []
  | c :: t =>
      if isWsChar c then
        if prevWs then collapseWs true t else ' ' :: collapseWs true t
      else c :: collapseWs false t

/-- The replacement `.replace(/,\s*/g, ',')`: each comma swallows the
whitespace run that follows it.  The boolean records whether we are
right after a comma (still skipping its trailing whitespace). -/
def dropWsAfterComma (afterComma : Bool) : List Char → List Char
  | [] => []
  | c :: t =>
      if c = ',' then ',' :: dropWsAfterComma true t
      else if afterComma && isWsChar c then dropWsAfterComma true t
      else c :: dropWsAfterComma false t

/-- The lookahead `(?=\s|,|$)` of the two zero-stripping regexes:
satisfied at end of input or before whitespace or a comma. -/
def sepAt : Option Char → Bool
  | none => true
  | some c => isWsChar c || c = ','

/-- Flush of `stripZeroRun`: `acc` holds, in reverse, the digit run
that followed a `.`.  The regex `(\.\d+)0+(?=\s|,|$)` matches exactly
when the run has length at least two, ends in `0` and is followed by a
separator, and then one single trailing zero is dropped (`\d+` is
greedy, so `0+` backtracks to a single zero). -/
def flushDigits (acc : List Char) (next : Option Char) : List Char :=
  if 2 ≤ acc.length && acc.head? = some '0' && sepAt next then
    '.' :: acc.tail.reverse
  else '.' :: acc.reverse

/-- Scanner for `.replace(/(\.\d+)0+(?=\s|,|$)/g, '$1')`.  The state is
`none` outside a fractional digit run, `some acc` when scanning one. -/
def stripZeroRun (st : Option (List Char)) : List Char → List Char
  | [] =>
      match st with
      | none => []
      | some acc => flushDigits acc none
  | c :: t =>
      match st with
      | none =>
          if c = '.' then stripZeroRun (some []) t
          else c :: stripZeroRun none t
      | some acc =>
          if c.isDigit then stripZeroRun (some (c :: acc)) t
          else
            flushDigits acc (some c) ++
              (if c = '.' then stripZeroRun (some []) t
               else c :: stripZeroRun none t)

/-- Flush of `stripDotZeros`: `z` zeros followed `.`; the regex
`\.0+(?=\s|,|$)` removes the whole match exactly when at least one zero
was read and a separator follows. -/
def flushZeros (z : Nat) (next : Option Char) : List Char :=
  if 1 ≤ z && sepAt next then [] else '.' :: List.replicate z '0'

/-- Scanner for `.replace(/\.0+(?=\s|,|$)/g, '')`.  The state is `none`
outside a zero run, `some z` after a `.` followed by `z` zeros. -/
def stripDotZeros (st : Option Nat) : List Char → List Char
  | [] =>
      match st with
      | none => []
      | some z => flushZeros z none
  | c :: t =>
      match st with
      | none =>
          if c = '.' then stripDotZeros (some 0) t
          else c :: stripDotZeros none t
      | some z =>
          if c = '0' then stripDotZeros (some (z + 1)) t
          else
            flushZeros z (some c) ++
              (if c = '.' then stripDotZeros (some 0) t
               else c :: stripDotZeros none t)

/-- The path-data rewriting applied to a `d` attribute value by
`SvgCleaner.optimizePaths`: collapse whitespace, drop whitespace after
commas, trim, then the two zero-stripping replacements. -/
def optimizeD (s : String) : String :=
  String.mk (stripDotZeros none (stripZeroRun none
    (trimChars (dropWsAfterComma false (collapseWs false s.data)))))

/-- Attribute update of `optimizePaths` on one element. -/
def updateDAttr (attrs : List (String × String)) : List (String × String) :=
  match getAttr attrs "d" with
  | some d => setAttr attrs "d" (optimizeD d)
  | none => attrs

mutual

/-- The `optimizePaths` on one node: rewrite the `d` attribute of every
`path` element. -/
def opathNode : XNode → XNode
  | .elem ns tag attrs cs =>
      .elem ns tag (if tag = "path" then updateDAttr attrs else attrs)
        (opathForest cs)
  | n => n

/-- The `optimizePaths` on a sibling list. -/
def opathForest : XNodes → XNodes
  | .nil => .nil
  | .cons n t => .cons (opathNode n) (opathForest t)

end

/-- The `SvgCleaner.optimizePaths`: `getElementsByTagName('path')` never
returns the root, so only descendants are rewritten. -/
def optimizePaths (root : XNode) : XNode :=
  root.withChildren (opathForest root.childrenOf)

mutual

/-- The `ensureIds` on one node, threading the number of ids generated so
far: a non-root element whose id is missing or empty receives
`'id-' + gen k` (modelling `Utils.generateId`, whose random suffix is
abstracted into the stream `gen`). -/
def eidNode (gen : Nat → String) : XNode → Nat → XNode × Nat
  | .elem ns tag attrs cs, k =>
      let a := if (getAttr attrs "id").getD "" = "" then
                 (setAttr attrs "id" ("id-" ++ gen k), k + 1)
               else (attrs, k)
      let r := eidForest gen cs a.2
      (.elem ns tag a.1 r.1, r.2)
  | n, k => (n, k)

/-- The `ensureIds` on a sibling list (document order, pre-order). -/
def eidForest (gen : Nat → String) : XNodes → Nat → XNodes × Nat
  | .nil, k => (.nil, k)
  | .cons n t, k =>
      let r := eidNode gen n k
      let r2 := eidForest gen t r.2
      (.cons r.1 r2.1, r2.2)

end

/-- The `SvgCleaner.ensureIds` (the root is exempt). -/
def ensureIds (gen : Nat → String) (root : XNode) : XNode :=
  root.withChildren (eidForest gen root.childrenOf 0).1

/-- The `cloneNode(true)`: a deep copy, which in a value semantics is the
value itself. -/
def cloneNode (t : XNode) : XNode := t

/-- The `SvgCleaner.cleanSvg`: clone the document, then apply the eight
passes in source order — empty groups, empty elements, unused defs,
comments, non-SVG elements, attributes, path data, ids. -/
def cleanSvg (gen : Nat → String) (svgDoc : XNode) : XNode :=
  ensureIds gen (optimizePaths (cleanAttributes (removeNonSvgElements
    (removeComments (removeUnusedDefs (removeEmptyElements
      (removeEmptyGroups (cloneNode svgDoc))))))))

/-- A store of live documents, addressed by index; `cleanSvg` is called
on one document of the store and its result is a fresh document, the
argument staying in place untouched. -/
def cleanSvgStore (gen : Nat → String) (store : List XNode) (i : Nat) :
    List XNode × Nat :=
  match store.get? i with
  | some doc => (store ++ [cleanSvg gen (cloneNode doc)], store.length)
  | none => (store, i)

mutual

/-- The identifiers carried by a node and its descendants: the values
of non-empty `id` attributes, in document order. -/
def idsNode : XNode → List String
  | .elem _ _ attrs cs =>
      (if (getAttr attrs "id").getD "" = "" then []
       else [(getAttr attrs "id").getD ""]) ++ idsForest cs
  | _ => []

/-- The identifiers of a sibling list. -/
def idsForest : XNodes → List String
  | .nil => []
  | .cons n t => idsNode n ++ idsForest t

end

/-- All identifiers of a document, the root's included. -/
def treeIds (root : XNode) : List String := idsNode root

/-- Invariant I1 of the specification, modelled from the spec: every
identifier present in the tree is unique among all elements that carry
one. -/
def wellFormedI1 (root : XNode) : Prop := (treeIds root).Nodup

instance (root : XNode) : Decidable (wellFormedI1 root) :=
  inferInstanceAs (Decidable (treeIds root).Nodup)

/-- Whether an element carrying the identifier `x` occurs in `root`. -/
def occId (x : String) (root : XNode) : Bool :=
  occNode (elemP (fun _ _ attrs => idAttr attrs = x)) root

mutual

/-- Every element of the subtree carries a non-empty identifier. -/
def allIdsSetNode : XNode → Bool
  | .elem _ _ attrs cs =>
      decide ((getAttr attrs "id").getD "" ≠ "") && allIdsSetForest cs
  | _ => true

/-- Every element of every subtree of the list carries a non-empty
identifier. -/
def allIdsSetForest : XNodes → Bool
  | .nil => true
  | .cons n t => allIdsSetNode n && allIdsSetForest t

end

/-- A captured pointer position (`Utils.getMousePosition` result); the
sandbox models coordinates as integers, which is faithful for the
boundary behaviour at stake since the source only concatenates them
into strings and compares squared lengths. -/
structure Pt where
  x : Int
  y : Int
deriving DecidableEq

/-- Template `${position.x} ${position.y}` used by the path tool. -/
def coordStr (p : Pt) : String := toString p.x ++ " " ++ toString p.y

/-- The `Tools.startPath`: the fresh path's `d` is `M x y` at the mousedown
position. -/
def startPathD (p : Pt) : String := "M " ++ coordStr p

/-- The `Tools.updatePath`: each mousemove appends ` L x y`. -/
def updatePathD (d : String) (p : Pt) : String := d ++ " L " ++ coordStr p

/-- The `d` string accumulated by a drag that started at `p` and moved
through `rest`. -/
def capturePathD (p : Pt) (rest : List Pt) : String :=
  rest.foldl updatePathD (startPathD p)

/-- Outcome of finishing a freehand capture: no primitive at all, a
line element, or a path element carrying the given `d` data. -/
inductive StrokeOutcome where
  | Discarded
  | Line (a b : Pt)
  | Path (d : String)
deriving DecidableEq

/-- Finalization of a stroke drawn with the path tool: with no captured
point no element was ever created; otherwise `Tools.finishPath` keeps
the current element unconditionally, with the `d` built by
`startPath`/`updatePath`. -/
def finalizeStroke : List Pt → StrokeOutcome
  | [] => .Discarded
  | p :: rest => .Path (capturePathD p rest)

/-- The `Tools.finishLine`: a finished line shorter than 5 units is removed
(`length < 5` is `dx² + dy² < 25`); otherwise the two endpoints stand. -/
def finishLine (a b : Pt) : StrokeOutcome :=
  if (b.x - a.x) * (b.x - a.x) + (b.y - a.y) * (b.y - a.y) < 25 then .Discarded
  else .Line a b

/-- A sample id-suffix stream standing for the `Math.random` suffixes
consumed by `Utils.generateId`. -/
def sampleGen : Nat → String := fun k => toString k

/-- A document whose root holds a chain of three nested, otherwise
empty `g` elements: `svg > g > g > g`. -/
def docNestedGroups : XNode :=
  .elem svgNamespace "svg" []
    (.cons (.elem svgNamespace "g" []
      (.cons (.elem svgNamespace "g" []
        (.cons (.elem svgNamespace "g" [] .nil) .nil)) .nil)) .nil)

/-- A document with a rectangle and a chain of three nested empty
groups. -/
def docGroupChain : XNode :=
  .elem svgNamespace "svg" []
    (.cons (.elem svgNamespace "rect" [("x", "1")] .nil)
      (.cons (.elem svgNamespace "g" []
        (.cons (.elem svgNamespace "g" []
          (.cons (.elem svgNamespace "g" [] .nil) .nil)) .nil)) .nil))

/-- A document whose only reference to the defined filter `x` sits
inside a comment node. -/
def docCommentRef : XNode :=
  .elem svgNamespace "svg" []
    (.cons (.elem svgNamespace "defs" []
      (.cons (.elem svgNamespace "filter" [("id", "x"), ("x", "0")] .nil) .nil))
      (.cons (.comment "url(#x)") .nil))

/-- A document with two `defs` containers; the second one's `pattern`
child carries the unreferenced id `u`. -/
def docTwoDefs : XNode :=
  .elem svgNamespace "svg" []
    (.cons (.elem svgNamespace "defs" [("n", "1")]
      (.cons (.elem svgNamespace "rect" [("id", "r1"), ("x", "0")] .nil) .nil))
      (.cons (.elem svgNamespace "defs" [("n", "2")]
        (.cons (.elem svgNamespace "pattern" [("id", "u")] .nil) .nil)) .nil))

/-- A document violating invariant I1: two elements share the id `a`;
it also holds an empty group for the passes to chew on. -/
def docDupIds : XNode :=
  .elem svgNamespace "svg" []
    (.cons (.elem svgNamespace "rect" [("id", "a"), ("x", "1")] .nil)
      (.cons (.elem svgNamespace "circle" [("id", "a"), ("cx", "2")] .nil)
        (.cons (.elem svgNamespace "g" [] .nil) .nil)))

/-- A document violating invariant I1 on which every pass is a no-op. -/
def docDupIdsStable : XNode :=
  .elem svgNamespace "svg" []
    (.cons (.elem svgNamespace "rect" [("id", "a"), ("x", "1")] .nil)
      (.cons (.elem svgNamespace "circle" [("id", "a"), ("cx", "2")] .nil) .nil))

/-- A document with two distinct elements both carrying the id `dup`. -/
def docDupPair : XNode :=
  .elem svgNamespace "svg" []
    (.cons (.elem svgNamespace "ellipse" [("id", "dup"), ("cx", "3")] .nil)
      (.cons (.elem svgNamespace "line" [("id", "dup"), ("x1", "0")] .nil) .nil))

/-- Direct description of the tail of a captured path's `d` data: one
` L x y` group per captured point after the first. -/
def pathTail : List Pt → String
  | [] => ""
  | q :: t => " L " ++ coordStr q ++ pathTail t

theorem foldl_updatePathD (rest : List Pt) (d : String) :
    rest.foldl updatePathD d = d ++ pathTail rest := by
  induction rest generalizing d with
  | nil => simp [pathTail]
  | cons q t ih => simp [pathTail, updatePathD, ih, String.append_assoc]

/-- C1: at the document `svg > g > g > g` a single `cleanSvg` removes
only the innermost two groups (`removeEmptyGroups` and
`removeEmptyElements` each sweep once, in document order, so the
outermost group — empty only after its child is gone — survives), and a
second `cleanSvg` removes it; therefore
`optimize(optimize(T)) ≠ optimize(T)`. -/
theorem claim1_optimize_not_idempotent :
    cleanSvg sampleGen (cleanSvg sampleGen docNestedGroups) ≠
      cleanSvg sampleGen docNestedGroups := by decide

/-- C2 counterexample: the path-data pass applied to
`"10.500000  20,   ,30.00"` does not produce `"10.5 20 30"`. -/
theorem claim2_counterexample :
    optimizeD "10.500000  20,   ,30.00" ≠ "10.5 20 30" := by decide

/-- C2 amended: on `"10.500000  20,   ,30.00"` the pass yields exactly
`"10.50000 20,,30"` — whitespace runs collapse to single spaces,
whitespace after a comma is dropped but the commas themselves stay,
`(\.\d+)0+` strips exactly one trailing zero per decimal per
application, and `\.0+` removes an all-zero fraction entirely. -/
theorem claim2_canonicalization_actual :
    optimizeD "10.500000  20,   ,30.00" = "10.50000 20,,30" := by decide

/-- C3: in `svg > (rect, g > g > g)` the two inner groups are removed
but the outermost group survives a single run of the pipeline — the
dead-container pruning does not reach a fixpoint. -/
theorem claim3_outer_group_survives :
    cleanSvg sampleGen docGroupChain =
      .elem svgNamespace "svg" []
        (.cons (.elem svgNamespace "rect" [("x", "1"), ("id", "id-0")] .nil)
          (.cons (.elem svgNamespace "g" [("id", "id-1")] .nil) .nil)) := by
  decide

/-- C5 counterexample: comments are removed only after the unused-defs
scan, so a `url(#x)` token occurring in a comment and nowhere else does
keep the definition `x` alive, contradicting the claimed pass order. -/
theorem claim5_counterexample :
    occId "x" (cleanSvg sampleGen docCommentRef) = true := by decide

/-- C5 amended: the actual order is empty groups, empty elements,
unused defs, comments, non-SVG elements, attributes, path data, ids; on
the comment-referenced document the comment is gone from the result
while the definition it referenced is retained. -/
theorem claim5_actual_order_effect :
    cleanSvg sampleGen docCommentRef =
      .elem svgNamespace "svg" []
        (.cons (.elem svgNamespace "defs" [("id", "id-0")]
          (.cons (.elem svgNamespace "filter" [("id", "x"), ("x", "0")] .nil)
            .nil)) .nil) := by decide

/-- C6 counterexample: a document with a duplicated id is not rejected
— every pass runs (the empty group is removed) and a cleaned document
is returned; no `MalformedDocument` error exists in the code. -/
theorem claim6_counterexample :
    ¬ wellFormedI1 docDupIds ∧
      cleanSvg sampleGen docDupIds =
        .elem svgNamespace "svg" []
          (.cons (.elem svgNamespace "rect" [("id", "a"), ("x", "1")] .nil)
            (.cons (.elem svgNamespace "circle" [("id", "a"), ("cx", "2")] .nil)
              .nil)) := by
  exact ⟨by decide, by decide⟩

/-- C6 amended: `cleanSvg` performs no validation and never fails: a
duplicate-id document flows through all passes like any other and the
duplicate identifiers survive into the result. -/
theorem claim6_no_validation :
    ¬ wellFormedI1 docDupIdsStable ∧
      cleanSvg sampleGen docDupIdsStable = docDupIdsStable ∧
      treeIds (cleanSvg sampleGen docDupIdsStable) = ["a", "a"] := by
  exact ⟨by decide, by decide, by decide⟩

/-- C7 counterexample: on a document whose two elements already share
the id `dup`, the optimized result still carries the duplicate — the
pipeline never enforces identifier uniqueness. -/
theorem claim7_counterexample :
    ¬ (treeIds (cleanSvg sampleGen docDupPair)).Nodup := by decide

/-- C8 counterexample: a stroke of exactly one captured point is not
discarded — `Tools.finishPath` keeps the current element
unconditionally, so the result is a path whose data is the bare
`M x y`. -/
theorem claim8_counterexample :
    finalizeStroke [⟨3, 4⟩] ≠ StrokeOutcome.Discarded := by decide

/-- C8 amended: the path capture never discards a non-empty stroke,
never degrades one to a line and never simplifies: the finished path's
data lists every captured point verbatim, in order, whatever the point
count. -/
theorem claim8_path_keeps_all_points :
    finalizeStroke [] = StrokeOutcome.Discarded ∧
      ∀ (p : Pt) (rest : List Pt),
        finalizeStroke (p :: rest) =
          StrokeOutcome.Path ("M " ++ coordStr p ++ pathTail rest) := by
  refine ⟨rfl, fun p rest => ?_⟩
  simp [finalizeStroke, capturePathD, startPathD, foldl_updatePathD,
    String.append_assoc]

/-- C9: `cleanSvg` works on a clone appended to the document store —
every document previously in the store is left byte-for-byte intact. -/
theorem claim9_optimize_preserves_input
    (gen : Nat → String) (store : List XNode) (i : Nat) :
    (cleanSvgStore gen store i).1.take store.length = store := by
  cases h : store[i]? with
  | some doc => simp [cleanSvgStore, h, List.take_left]
  | none => simp [cleanSvgStore, h]

/-- C10 counterexample: the `pattern` child of the second `defs`
container carries the id `u`, referenced nowhere, and is nonetheless
removed by the pipeline (`removeEmptyElements` deletes it as an empty,
geometry-free element). -/
theorem claim10_counterexample :
    occId "u" (cleanSvg sampleGen docTwoDefs) = false := by decide

@[simp]
theorem xnodes_nil_append (r : XNodes) : (XNodes.nil ++ r) = r := rfl

@[simp]
theorem xnodes_cons_append (n : XNode) (t r : XNodes) :
    (XNodes.cons n t ++ r) = .cons n (t ++ r) := rfl

@[simp]
theorem xnodes_any_append (p : XNode → Bool) :
    ∀ l r : XNodes, (l ++ r).any p = (l.any p || r.any p)
  | .nil, r => rfl
  | .cons n t, r => by
      have ih : XNodes.any p (XNodes.append t r) =
          (XNodes.any p t || XNodes.any p r) := xnodes_any_append p t r
      simp [XNodes.any, ih, Bool.or_assoc]

@[simp]
theorem occForest_append (p : XNode → Bool) :
    ∀ l r : XNodes, occForest p (l ++ r) = (occForest p l || occForest p r)
  | .nil, r => rfl
  | .cons n t, r => by
      have ih : occForest p (XNodes.append t r) =
          (occForest p t || occForest p r) := occForest_append p t r
      simp [occForest, ih, Bool.or_assoc]

@[simp]
theorem pruneForest_nil (d : XNode → Bool) :
    pruneForest d .nil = .nil := rfl

theorem pruneForest_cons (d : XNode → Bool) (n : XNode) (t : XNodes) :
    pruneForest d (.cons n t) =
      if d n then pruneForest d t
      else .cons (pruneNode d n) (pruneForest d t) := by
  rfl

@[simp]
theorem pruneForest_append (d : XNode → Bool) :
    ∀ l r : XNodes, pruneForest d (l ++ r) = pruneForest d l ++ pruneForest d r
  | .nil, r => rfl
  | .cons n t, r => by
      have ih : pruneForest d (XNodes.append t r) =
          pruneForest d t ++ pruneForest d r := pruneForest_append d t r
      by_cases h : d n <;> simp [pruneForest_cons, h] <;> exact ih

mutual

theorem occNode_elemP_pruneNode_false
    (q : String → String → List (String × String) → Bool)
    (d : XNode → Bool) :
    ∀ n : XNode, occNode (elemP q) n = false →
      occNode (elemP q) (pruneNode d n) = false
  | .elem ns tag attrs cs, h => by
      have h1 : q ns tag attrs = false := by
        by_contra hq
        simp [occNode, elemP, Bool.eq_false_iff.mp] at h
        exact absurd h.1 (by simpa using hq)
      have h2 : occForest (elemP q) cs = false := by
        simp [occNode, elemP] at h
        simpa using h.2
      simp [pruneNode, occNode, elemP, h1,
        occForest_elemP_pruneForest_false q d cs h2]
  | .text s, h => h
  | .comment s, h => h

theorem occForest_elemP_pruneForest_false
    (q : String → String → List (String × String) → Bool)
    (d : XNode → Bool) :
    ∀ l : XNodes, occForest (elemP q) l = false →
      occForest (elemP q) (pruneForest d l) = false
  | .nil, _ => rfl
  | .cons n t, h => by
      have hn : occNode (elemP q) n = false := by
        simp [occForest] at h; simpa using h.1
      have ht : occForest (elemP q) t = false := by
        simp [occForest] at h; simpa using h.2
      by_cases hd : d n
      · simpa [pruneForest_cons, hd] using
          occForest_elemP_pruneForest_false q d t ht
      · simp [pruneForest_cons, hd, occForest,
          occNode_elemP_pruneNode_false q d n hn,
          occForest_elemP_pruneForest_false q d t ht]

end

theorem occ_implies_content (p : XNode → Bool)
    (hp : ∀ n, p n = true → n.isElem = true) :
    ∀ l : XNodes, occForest p l = true → hasContent l = true
  | .cons n t, h => by
      rcases Bool.or_eq_true_iff.mp (by simpa [occForest] using h) with hn | ht
      · cases n with
        | elem ns tag attrs cs => simp [hasContent, XNodes.any, contentChild]
        | text s =>
            have := hp (.text s) (by simpa [occNode] using hn)
            simp [XNode.isElem] at this
        | comment s =>
            have := hp (.comment s) (by simpa [occNode] using hn)
            simp [XNode.isElem] at this
      · have := occ_implies_content p hp t ht
        simp [hasContent, XNodes.any] at this ⊢
        exact Or.inr this

mutual

theorem pruneNode_presence
    (q : String → String → List (String × String) → Bool)
    (d : XNode → Bool)
    (hsafe : ∀ ns tag attrs cs, hasContent cs = true →
      d (.elem ns tag attrs cs) = false)
    (himp : ∀ ns tag attrs cs, q ns tag attrs = true →
      d (.elem ns tag attrs cs) = false) :
    ∀ n : XNode, occNode (elemP q) n = true →
      occNode (elemP q) (pruneNode d n) = true
  | .elem ns tag attrs cs, h => by
      rcases Bool.or_eq_true_iff.mp (by simpa [occNode, elemP] using h)
        with hq | hcs
      · simp [pruneNode, occNode, elemP, hq]
      · simp [pruneNode, occNode, elemP,
          pruneForest_presence q d hsafe himp cs hcs]
  | .text s, h => h
  | .comment s, h => h

theorem pruneForest_presence
    (q : String → String → List (String × String) → Bool)
    (d : XNode → Bool)
    (hsafe : ∀ ns tag attrs cs, hasContent cs = true →
      d (.elem ns tag attrs cs) = false)
    (himp : ∀ ns tag attrs cs, q ns tag attrs = true →
      d (.elem ns tag attrs cs) = false) :
    ∀ l : XNodes, occForest (elemP q) l = true →
      occForest (elemP q) (pruneForest d l) = true
  | .cons n t, h => by
      rcases Bool.or_eq_true_iff.mp (by simpa [occForest] using h) with hn | ht
      · have hdn : d n = false := by
          cases n with
          | elem ns tag attrs cs =>
              rcases Bool.or_eq_true_iff.mp
                (by simpa [occNode, elemP] using hn) with hq | hcs
              · exact himp ns tag attrs cs hq
              · exact hsafe ns tag attrs cs
                  (occ_implies_content (elemP q)
                    (by intro m hm
                        cases m <;> simp [elemP, XNode.isElem] at hm ⊢) cs hcs)
          | text s => simp [occNode, elemP] at hn
          | comment s => simp [occNode, elemP] at hn
        simp [pruneForest_cons, hdn, occForest,
          pruneNode_presence q d hsafe himp n hn]
      · by_cases hdn : d n
        · simpa [pruneForest_cons, hdn] using
            pruneForest_presence q d hsafe himp t ht
        · simp [pruneForest_cons, hdn, occForest,
            pruneForest_presence q d hsafe himp t ht]
  | .nil, h => by simp [occForest] at h

end

@[simp]
theorem escAttr_append : ∀ a b : List Char, escAttr (a ++ b) = escAttr a ++ escAttr b
  | [], b => rfl
  | c :: t, b => by simp [escAttr, escAttr_append t b]

theorem infix_escAttr {nd v : List Char} (h : nd <:+: v) :
    escAttr nd <:+: escAttr v := by
  obtain ⟨s, t, rfl⟩ := h
  exact ⟨escAttr s, escAttr t, by simp⟩

theorem serAttrs_infix_of_mem {k v : String} :
    ∀ attrs : List (String × String), (k, v) ∈ attrs →
      escAttr v.data <:+: serAttrs attrs
  | p :: t, h => by
      rcases List.mem_cons.mp h with h1 | h2
      · refine List.IsInfix.trans ?_ (List.infix_append [] (serAttr p) (serAttrs t))
        subst h1
        refine ⟨' ' :: k.data ++ ['=', '"'], ['"'], ?_⟩
        simp [serAttr]
      · exact (serAttrs_infix_of_mem t h2).trans
          ⟨serAttr p, [], by simp [serAttrs]⟩

theorem infix_mid {l S : List Char} (h : l <:+: S) (A Y : List Char) :
    l <:+: (A ++ S) ++ Y :=
  h.trans ⟨A, Y, by simp⟩

theorem infix_last {l Y : List Char} (h : l <:+: Y) (A S : List Char) :
    l <:+: (A ++ S) ++ Y :=
  h.trans ⟨A ++ S, [], by simp⟩

mutual

theorem serNode_tok
    (q : String → String → List (String × String) → Bool)
    (tok : List Char)
    (hq : ∀ ns tag attrs, q ns tag attrs = true →
      ∃ k v : String, (k, v) ∈ attrs ∧ tok <:+: v.data) :
    ∀ (pns : String) (n : XNode),
      occNode (elemP q) n = true → escAttr tok <:+: serNode pns n
  | pns, .elem ns tag attrs cs, h => by
      rcases Bool.or_eq_true_iff.mp (by simpa [occNode, elemP] using h)
        with hqq | hcs
      · obtain ⟨k, v, hkv, hvtok⟩ := hq ns tag attrs hqq
        have h1 : escAttr tok <:+: serAttrs attrs :=
          (infix_escAttr hvtok).trans (serAttrs_infix_of_mem attrs hkv)
        cases cs with
        | nil =>
            rw [serNode]
            exact infix_mid h1 _ _
        | cons m t =>
            rw [serNode]
            · exact infix_mid h1 _ _
            · exact fun hc => XNodes.noConfusion hc
      · cases cs with
        | nil => simp [occForest] at hcs
        | cons m t =>
            have h1 : escAttr tok <:+: serForest ns (.cons m t) :=
              serForest_tok q tok hq ns (.cons m t) hcs
            have h2 : escAttr tok <:+:
                (('>' :: serForest ns (.cons m t)) ++
                  ('<' :: '/' :: tag.data)) ++ ['>'] :=
              h1.trans ⟨['>'], ('<' :: '/' :: tag.data) ++ ['>'], by simp⟩
            rw [serNode]
            · exact infix_last h2 _ _
            · exact fun hc => XNodes.noConfusion hc
  | pns, .text s, h => by simp [occNode, elemP] at h
  | pns, .comment s, h => by simp [occNode, elemP] at h

theorem serForest_tok
    (q : String → String → List (String × String) → Bool)
    (tok : List Char)
    (hq : ∀ ns tag attrs, q ns tag attrs = true →
      ∃ k v : String, (k, v) ∈ attrs ∧ tok <:+: v.data) :
    ∀ (pns : String) (l : XNodes),
      occForest (elemP q) l = true → escAttr tok <:+: serForest pns l
  | pns, .cons n t, h => by
      rcases Bool.or_eq_true_iff.mp (by simpa [occForest] using h) with hn | ht
      · exact (serNode_tok q tok hq pns n hn).trans
          ⟨[], serForest pns t, by simp [serForest]⟩
      · exact (serForest_tok q tok hq pns t ht).trans
          ⟨serNode pns n, [], by simp [serForest]⟩
  | pns, .nil, h => by simp [occForest] at h

end

mutual

theorem rudNode_no_defs (s : List Char) :
    ∀ n : XNode, occNode (elemP defsP) n = false →
      rudNode s n = (some n, false)
  | .elem ns tag attrs cs, h => by
      have h0 : (elemP defsP (XNode.elem ns tag attrs cs) ||
          occForest (elemP defsP) cs) = false := by
        simpa [occNode] using h
      have h1 : tag ≠ "defs" := by
        intro hc
        simp [elemP, defsP, hc] at h0
      have h2 : occForest (elemP defsP) cs = false := by
        rcases Bool.or_eq_false_iff.mp h0 with ⟨_, h2⟩
        exact h2
      simp [rudNode, h1, rudForest_no_defs s cs h2]
  | .text s0, _ => rfl
  | .comment s0, _ => rfl

theorem rudForest_no_defs (s : List Char) :
    ∀ l : XNodes, occForest (elemP defsP) l = false → rudForest s l = (l, false)
  | .nil, _ => rfl
  | .cons n t, h => by
      have h0 := Bool.or_eq_false_iff.mp (by simpa [occForest] using h)
      simp [rudForest, rudNode_no_defs s n h0.1, rudForest_no_defs s t h0.2]

end

theorem rudForest_first (s : List Char) :
    ∀ A : XNodes, occDefs A = false →
      ∀ (ns : String) (attrs : List (String × String)) (cs B : XNodes),
      rudForest s (A ++ .cons (.elem ns "defs" attrs cs) B) =
        (A ++ (if hasElemChild (filterDefsChildren s cs)
               then .cons (.elem ns "defs" attrs (filterDefsChildren s cs)) B
               else B), true)
  | .nil, _, ns, attrs, cs, B => by
      by_cases h : hasElemChild (filterDefsChildren s cs) <;>
        simp [rudForest, rudNode, h]
  | .cons a A', h, ns, attrs, cs, B => by
      have h0 := Bool.or_eq_false_iff.mp (by simpa [occDefs, occForest] using h)
      have ih : rudForest s (XNodes.append A'
            (.cons (.elem ns "defs" attrs cs) B)) =
          (A' ++ (if hasElemChild (filterDefsChildren s cs)
                  then .cons (.elem ns "defs" attrs (filterDefsChildren s cs)) B
                  else B), true) :=
        rudForest_first s A' (by simpa [occDefs] using h0.2) ns attrs cs B
      simp [rudForest, rudNode_no_defs s a h0.1, ih]

/-- C10 amended: `removeUnusedDefs` touches only the first `defs`
container in document order; everything before it and everything after
it — in particular every later `defs` container and all their children
— is reproduced verbatim, whether or not any identifier is
referenced. -/
theorem claim10_first_defs_only
    (rns rtag dns : String) (rattrs dattrs : List (String × String))
    (A B cs : XNodes) (hA : occDefs A = false) :
    ∃ mid : XNodes,
      removeUnusedDefs (.elem rns rtag rattrs
        (A ++ .cons (.elem dns "defs" dattrs cs) B)) =
      .elem rns rtag rattrs (A ++ (mid ++ B)) := by
  have h1 := rudForest_first (svgToString (XNode.elem rns rtag rattrs
      (A ++ .cons (.elem dns "defs" dattrs cs) B))) A hA dns dattrs cs B
  have hocc : occTag "defs"
      (A ++ XNodes.cons (XNode.elem dns "defs" dattrs cs) B) = true := by
    simp [occTag, occForest, occNode, XNode.isElem, XNode.tagOf]
  by_cases h2 : hasElemChild (filterDefsChildren (svgToString
      (XNode.elem rns rtag rattrs
        (A ++ .cons (.elem dns "defs" dattrs cs) B))) cs) = true
  · refine ⟨.cons (.elem dns "defs" dattrs (filterDefsChildren (svgToString
      (XNode.elem rns rtag rattrs
        (A ++ .cons (.elem dns "defs" dattrs cs) B))) cs)) .nil, ?_⟩
    simp [removeUnusedDefs, XNode.childrenOf, XNode.withChildren, hocc, h1, h2]
  · refine ⟨.nil, ?_⟩
    simp only [Bool.not_eq_true] at h2
    simp [removeUnusedDefs, XNode.childrenOf, XNode.withChildren, hocc, h1, h2]

/-- Witness for the C10 amendment: a concrete document with two `defs`
containers, the second of which holds an unreferenced `pattern`; the
pass leaves the segment after the first `defs` untouched. -/
theorem claim10_first_defs_only_witness :
    ∃ mid : XNodes,
      removeUnusedDefs (.elem svgNamespace "svg" []
        ((XNodes.cons (.elem svgNamespace "rect" [("x", "1")] .nil) .nil) ++
          .cons (.elem svgNamespace "defs" [("n", "1")]
            (.cons (.elem svgNamespace "rect" [("id", "r1"), ("x", "0")] .nil)
              .nil))
            (XNodes.cons (.elem svgNamespace "defs" [("n", "2")]
              (.cons (.elem svgNamespace "pattern" [("id", "u")] .nil) .nil))
              .nil))) =
      .elem svgNamespace "svg" []
        ((XNodes.cons (.elem svgNamespace "rect" [("x", "1")] .nil) .nil) ++
          (mid ++
            (XNodes.cons (.elem svgNamespace "defs" [("n", "2")]
              (.cons (.elem svgNamespace "pattern" [("id", "u")] .nil) .nil))
              .nil))) :=
  claim10_first_defs_only svgNamespace "svg" svgNamespace [] [("n", "1")]
    (XNodes.cons (.elem svgNamespace "rect" [("x", "1")] .nil) .nil)
    (XNodes.cons (.elem svgNamespace "defs" [("n", "2")]
      (.cons (.elem svgNamespace "pattern" [("id", "u")] .nil) .nil)) .nil)
    (.cons (.elem svgNamespace "rect" [("id", "r1"), ("x", "0")] .nil) .nil)
    (by decide)

theorem getAttr_filter (f : String × String → Bool) (name : String)
    (hf : ∀ v, f (name, v) = true) :
    ∀ attrs : List (String × String),
      getAttr (attrs.filter f) name = getAttr attrs name
  | [] => rfl
  | (k, v) :: t => by
      by_cases hk : k = name
      · subst hk
        simp [List.filter_cons, hf v, getAttr]
      · by_cases hfv : f (k, v) <;>
          simp [List.filter_cons, hfv, getAttr, hk, getAttr_filter f name hf t]

theorem idAttr_cleanAttrList (attrs : List (String × String)) :
    idAttr (cleanAttrList attrs) = idAttr attrs := by
  unfold idAttr cleanAttrList
  rw [getAttr_filter]
  intro v
  simp [unnecessaryAttr, listPrefixOf]

theorem getAttr_map_set (name name' v : String) (h : name' ≠ name) :
    ∀ attrs : List (String × String),
      getAttr (attrs.map (fun p => if p.1 = name then (name, v) else p)) name' =
        getAttr attrs name'
  | [] => rfl
  | (k, w) :: t => by
      by_cases hk : k = name
      · subst hk
        have h2 : List.map (fun p : String × String =>
              if p.1 = k then (k, v) else p) ((k, w) :: t) =
            (k, v) :: List.map (fun p : String × String =>
              if p.1 = k then (k, v) else p) t := by simp
        rw [h2]
        simp only [getAttr]
        rw [if_neg (Ne.symm h), if_neg (Ne.symm h)]
        exact getAttr_map_set k name' v h t
      · have h2 : List.map (fun p : String × String =>
              if p.1 = name then (name, v) else p) ((k, w) :: t) =
            (k, w) :: List.map (fun p : String × String =>
              if p.1 = name then (name, v) else p) t := by simp [hk]
        rw [h2]
        simp only [getAttr]
        by_cases hk2 : k = name'
        · rw [if_pos hk2, if_pos hk2]
        · rw [if_neg hk2, if_neg hk2]
          exact getAttr_map_set name name' v h t

theorem getAttr_append_none (name : String) :
    ∀ l r : List (String × String), getAttr l name = none →
      getAttr (l ++ r) name = getAttr r name
  | [], r, _ => rfl
  | (k, w) :: t, r, h => by
      by_cases hk : k = name
      · simp [getAttr, hk] at h
      · simp [getAttr, hk] at h ⊢
        exact getAttr_append_none name t r h

theorem getAttr_setAttr_ne (attrs : List (String × String))
    (name name' v : String) (h : name' ≠ name) :
    getAttr (setAttr attrs name v) name' = getAttr attrs name' := by
  unfold setAttr
  by_cases ha : attrs.any (fun p => p.1 = name)
  · simp [ha, getAttr_map_set name name' v h attrs]
  · simp only [ha, if_neg, Bool.false_eq_true, not_false_eq_true]
    cases hg : getAttr attrs name' with
    | none =>
        rw [getAttr_append_none name' attrs _ hg]
        simp [getAttr, Ne.symm h]
    | some w =>
        clear ha
        induction attrs with
        | nil => simp [getAttr] at hg
        | cons p t ih =>
            by_cases hk : p.1 = name'
            · simp [getAttr, hk] at hg ⊢
              exact hg
            · simp [getAttr, hk] at hg ⊢
              exact ih hg

theorem idAttr_updateD (attrs : List (String × String)) :
    idAttr (updateDAttr attrs) = idAttr attrs := by
  unfold updateDAttr
  cases hg : getAttr attrs "d" with
  | none => rfl
  | some d =>
      unfold idAttr
      rw [getAttr_setAttr_ne attrs "d" "id" (optimizeD d) (by decide)]

theorem cattrForest_append :
    ∀ l r : XNodes, cattrForest (l ++ r) = cattrForest l ++ cattrForest r
  | .nil, r => rfl
  | .cons n t, r => by
      have ih : cattrForest (XNodes.append t r) =
          cattrForest t ++ cattrForest r := cattrForest_append t r
      simp [cattrForest, ih]

theorem opathForest_append :
    ∀ l r : XNodes, opathForest (l ++ r) = opathForest l ++ opathForest r
  | .nil, r => rfl
  | .cons n t, r => by
      have ih : opathForest (XNodes.append t r) =
          opathForest t ++ opathForest r := opathForest_append t r
      simp [opathForest, ih]

theorem eidForest_append (gen : Nat → String) :
    ∀ (l r : XNodes) (k : Nat),
      eidForest gen (l ++ r) k =
        ((eidForest gen l k).1 ++ (eidForest gen r (eidForest gen l k).2).1,
          (eidForest gen r (eidForest gen l k).2).2)
  | .nil, r, k => rfl
  | .cons n t, r, k => by
      have ih := eidForest_append gen t r (eidNode gen n k).2
      simp only [eidForest]
      have ih2 : eidForest gen (XNodes.append t r) (eidNode gen n k).2 =
          ((eidForest gen t (eidNode gen n k).2).1 ++
            (eidForest gen r (eidForest gen t (eidNode gen n k).2).2).1,
            (eidForest gen r (eidForest gen t (eidNode gen n k).2).2).2) := ih
      simp [ih2]

theorem filterDefs_occ_false (s : List Char) (p : XNode → Bool) :
    ∀ cs : XNodes, occForest p cs = false →
      occForest p (filterDefsChildren s cs) = false
  | .nil, _ => rfl
  | .cons n t, h => by
      have h0 := Bool.or_eq_false_iff.mp (by simpa [occForest] using h)
      by_cases hk : keepDefsItem s n <;>
        simp [filterDefsChildren, hk, occForest, h0.1,
          filterDefs_occ_false s p t h0.2]

mutual

theorem rudNode_occ_false
    (q : String → String → List (String × String) → Bool) (s : List Char) :
    ∀ n : XNode, occNode (elemP q) n = false →
      ∀ m : XNode, (rudNode s n).1 = some m → occNode (elemP q) m = false
  | .elem ns tag attrs cs, h => by
      intro m hm
      have h1 : elemP q (XNode.elem ns tag attrs cs) = false := by
        rcases Bool.or_eq_false_iff.mp (by simpa [occNode] using h) with ⟨a, _⟩
        exact a
      have h2 : occForest (elemP q) cs = false := by
        rcases Bool.or_eq_false_iff.mp (by simpa [occNode] using h) with ⟨_, b⟩
        exact b
      by_cases hd : tag = "defs"
      · subst hd
        by_cases hk : hasElemChild (filterDefsChildren s cs) = true
        · simp [rudNode, hk] at hm
          subst hm
          simp [occNode, elemP] at h1 ⊢
          exact ⟨h1, filterDefs_occ_false s (elemP q) cs h2⟩
        · simp [rudNode, hk] at hm
      · simp [rudNode, hd] at hm
        by_cases hr : (rudForest s cs).2 = true
        · rw [if_pos hr] at hm
          simp at hm
          subst hm
          simp [occNode, elemP] at h1 ⊢
          exact ⟨h1, rudForest_occ_false q s cs h2⟩
        · rw [if_neg hr] at hm
          simp at hm
          subst hm
          simpa [occNode] using h
  | .text s0, h => by
      intro m hm
      simp [rudNode] at hm
      subst hm
      exact h
  | .comment s0, h => by
      intro m hm
      simp [rudNode] at hm
      subst hm
      exact h

theorem rudForest_occ_false
    (q : String → String → List (String × String) → Bool) (s : List Char) :
    ∀ l : XNodes, occForest (elemP q) l = false →
      occForest (elemP q) (rudForest s l).1 = false
  | .nil, _ => rfl
  | .cons n t, h => by
      have h0 := Bool.or_eq_false_iff.mp (by simpa [occForest] using h)
      by_cases hr : (rudNode s n).2 = true
      · rw [rudForest]
        simp only [hr, if_pos]
        cases hm : (rudNode s n).1 with
        | some m =>
            simp [occForest, rudNode_occ_false q s n h0.1 m hm, h0.2]
        | none => simp [occForest, h0.2]
      · rw [rudForest]
        simp only [hr, if_neg, Bool.false_eq_true, not_false_eq_true]
        simp [occForest, h0.1, rudForest_occ_false q s t h0.2]

end

mutual

theorem pruneNode_presence_nodrop
    (q : String → String → List (String × String) → Bool)
    (d : XNode → Bool) :
    ∀ n : XNode, occNode d n = false → occNode (elemP q) n = true →
      occNode (elemP q) (pruneNode d n) = true
  | .elem ns tag attrs cs, hd, h => by
      have hd2 := Bool.or_eq_false_iff.mp (by simpa [occNode] using hd)
      rcases Bool.or_eq_true_iff.mp (by simpa [occNode] using h) with hq | hcs
      · simp [elemP] at hq
        simp [pruneNode, occNode, elemP, hq]
      · simp [pruneNode, occNode,
          pruneForest_presence_nodrop q d cs hd2.2 hcs]
  | .text s, _, h => h
  | .comment s, _, h => h

theorem pruneForest_presence_nodrop
    (q : String → String → List (String × String) → Bool)
    (d : XNode → Bool) :
    ∀ l : XNodes, occForest d l = false → occForest (elemP q) l = true →
      occForest (elemP q) (pruneForest d l) = true
  | .cons n t, hd, h => by
      have hd2 := Bool.or_eq_false_iff.mp (by simpa [occForest] using hd)
      have hdn : d n = false := by
        have := hd2.1
        cases n with
        | elem ns tag attrs cs =>
            rcases Bool.or_eq_false_iff.mp
              (by simpa [occNode] using this) with ⟨a, _⟩
            exact a
        | text s => simpa [occNode] using this
        | comment s => simpa [occNode] using this
      rcases Bool.or_eq_true_iff.mp (by simpa [occForest] using h) with hn | ht
      · simp [pruneForest_cons, hdn, occForest,
          pruneNode_presence_nodrop q d n hd2.1 hn]
      · simp [pruneForest_cons, hdn, occForest,
          pruneForest_presence_nodrop q d t hd2.2 ht]
  | .nil, _, h => by simp [occForest] at h

end

mutual

theorem cattrNode_presence
    (q : String → String → List (String × String) → Bool)
    (hstab : ∀ ns tag attrs, q ns tag attrs = true →
      q ns tag (cleanAttrList attrs) = true) :
    ∀ n : XNode, occNode (elemP q) n = true →
      occNode (elemP q) (cattrNode n) = true
  | .elem ns tag attrs cs, h => by
      rcases Bool.or_eq_true_iff.mp (by simpa [occNode] using h) with hq | hcs
      · simp [cattrNode, occNode, elemP] at hq ⊢
        exact Or.inl (hstab ns tag attrs hq)
      · simp [cattrNode, occNode,
          cattrForest_presence q hstab cs hcs]
  | .text s, h => h
  | .comment s, h => h

theorem cattrForest_presence
    (q : String → String → List (String × String) → Bool)
    (hstab : ∀ ns tag attrs, q ns tag attrs = true →
      q ns tag (cleanAttrList attrs) = true) :
    ∀ l : XNodes, occForest (elemP q) l = true →
      occForest (elemP q) (cattrForest l) = true
  | .cons n t, h => by
      rcases Bool.or_eq_true_iff.mp (by simpa [occForest] using h) with hn | ht
      · simp [cattrForest, occForest, cattrNode_presence q hstab n hn]
      · simp [cattrForest, occForest, cattrForest_presence q hstab t ht]
  | .nil, h => by simp [occForest] at h

end

mutual

theorem opathNode_presence
    (q : String → String → List (String × String) → Bool)
    (hstab : ∀ ns tag attrs, q ns tag attrs = true →
      q ns tag (if tag = "path" then updateDAttr attrs else attrs) = true) :
    ∀ n : XNode, occNode (elemP q) n = true →
      occNode (elemP q) (opathNode n) = true
  | .elem ns tag attrs cs, h => by
      rcases Bool.or_eq_true_iff.mp (by simpa [occNode] using h) with hq | hcs
      · simp [opathNode, occNode, elemP] at hq ⊢
        exact Or.inl (hstab ns tag attrs hq)
      · simp [opathNode, occNode, opathForest_presence q hstab cs hcs]
  | .text s, h => h
  | .comment s, h => h

theorem opathForest_presence
    (q : String → String → List (String × String) → Bool)
    (hstab : ∀ ns tag attrs, q ns tag attrs = true →
      q ns tag (if tag = "path" then updateDAttr attrs else attrs) = true) :
    ∀ l : XNodes, occForest (elemP q) l = true →
      occForest (elemP q) (opathForest l) = true
  | .cons n t, h => by
      rcases Bool.or_eq_true_iff.mp (by simpa [occForest] using h) with hn | ht
      · simp [opathForest, occForest, opathNode_presence q hstab n hn]
      · simp [opathForest, occForest, opathForest_presence q hstab t ht]
  | .nil, h => by simp [occForest] at h

end

mutual

theorem eidNode_presence (gen : Nat → String)
    (q : String → String → List (String × String) → Bool)
    (hstab : ∀ ns tag attrs k, q ns tag attrs = true →
      q ns tag (if idAttr attrs = "" then
        setAttr attrs "id" ("id-" ++ gen k) else attrs) = true) :
    ∀ (n : XNode) (k : Nat), occNode (elemP q) n = true →
      occNode (elemP q) (eidNode gen n k).1 = true
  | .elem ns tag attrs cs, k, h => by
      rcases Bool.or_eq_true_iff.mp (by simpa [occNode] using h) with hq | hcs
      · simp only [eidNode, idAttr]
        by_cases hid : (getAttr attrs "id").getD "" = "" <;>
          · simp only [hid, if_pos, if_neg, occNode]
            simp [elemP] at hq ⊢
            refine Or.inl ?_
            have := hstab ns tag attrs k hq
            simpa [idAttr, hid] using this
      · simp only [eidNode]
        by_cases hid : (getAttr attrs "id").getD "" = "" <;>
          simp [hid, occNode, eidForest_presence gen q hstab cs _ hcs]
  | .text s, _, h => h
  | .comment s, _, h => h

theorem eidForest_presence (gen : Nat → String)
    (q : String → String → List (String × String) → Bool)
    (hstab : ∀ ns tag attrs k, q ns tag attrs = true →
      q ns tag (if idAttr attrs = "" then
        setAttr attrs "id" ("id-" ++ gen k) else attrs) = true) :
    ∀ (l : XNodes) (k : Nat), occForest (elemP q) l = true →
      occForest (elemP q) (eidForest gen l k).1 = true
  | .cons n t, k, h => by
      rcases Bool.or_eq_true_iff.mp (by simpa [occForest] using h) with hn | ht
      · simp [eidForest, occForest, eidNode_presence gen q hstab n k hn]
      · simp [eidForest, occForest,
          eidForest_presence gen q hstab t (eidNode gen n k).2 ht]
  | .nil, _, h => by simp [occForest] at h

end

@[simp]
theorem idsForest_append : ∀ l r : XNodes,
    idsForest (l ++ r) = idsForest l ++ idsForest r
  | .nil, r => rfl
  | .cons n t, r => by
      have ih : idsForest (XNodes.append t r) = idsForest t ++ idsForest r :=
        idsForest_append t r
      simp [idsForest, ih]

mutual

theorem idsNode_prune_sublist (d : XNode → Bool) :
    ∀ n : XNode, List.Sublist (idsNode (pruneNode d n)) (idsNode n)
  | .elem ns tag attrs cs => by
      simp only [pruneNode, idsNode]
      exact List.Sublist.append (List.Sublist.refl _)
        (idsForest_prune_sublist d cs)
  | .text s => List.Sublist.refl _
  | .comment s => List.Sublist.refl _

theorem idsForest_prune_sublist (d : XNode → Bool) :
    ∀ l : XNodes, List.Sublist (idsForest (pruneForest d l)) (idsForest l)
  | .nil => List.Sublist.refl _
  | .cons n t => by
      by_cases h : d n
      · simp only [pruneForest_cons, h, if_pos]
        exact List.sublist_append_of_sublist_right (idsForest_prune_sublist d t)
      · simp only [pruneForest_cons, h, if_neg, Bool.false_eq_true,
          not_false_eq_true, idsForest]
        exact List.Sublist.append (idsNode_prune_sublist d n)
          (idsForest_prune_sublist d t)

end

theorem idsForest_filterDefs_sublist (s : List Char) :
    ∀ cs : XNodes,
      List.Sublist (idsForest (filterDefsChildren s cs)) (idsForest cs)
  | .nil => List.Sublist.refl _
  | .cons n t => by
      by_cases h : keepDefsItem s n
      · simp only [filterDefsChildren, h, if_pos, idsForest]
        exact List.Sublist.append (List.Sublist.refl _)
          (idsForest_filterDefs_sublist s t)
      · simp only [filterDefsChildren, h, if_neg, Bool.false_eq_true,
          not_false_eq_true]
        exact List.sublist_append_of_sublist_right
          (idsForest_filterDefs_sublist s t)

mutual

theorem idsNode_rud_sublist (s : List Char) :
    ∀ n : XNode, ∀ m : XNode, (rudNode s n).1 = some m →
      List.Sublist (idsNode m) (idsNode n)
  | .elem ns tag attrs cs => by
      intro m hm
      by_cases hd : tag = "defs"
      · subst hd
        by_cases hk : hasElemChild (filterDefsChildren s cs) = true
        · simp [rudNode, hk] at hm
          subst hm
          simp only [idsNode]
          exact List.Sublist.append (List.Sublist.refl _)
            (idsForest_filterDefs_sublist s cs)
        · simp [rudNode, hk] at hm
      · simp [rudNode, hd] at hm
        by_cases hr : (rudForest s cs).2 = true
        · rw [if_pos hr] at hm
          simp at hm
          subst hm
          simp only [idsNode]
          exact List.Sublist.append (List.Sublist.refl _)
            (idsForest_rud_sublist s cs)
        · rw [if_neg hr] at hm
          simp at hm
          subst hm
          exact List.Sublist.refl _
  | .text s0 => by
      intro m hm
      simp [rudNode] at hm
      subst hm
      exact List.Sublist.refl _
  | .comment s0 => by
      intro m hm
      simp [rudNode] at hm
      subst hm
      exact List.Sublist.refl _

theorem idsForest_rud_sublist (s : List Char) :
    ∀ l : XNodes, List.Sublist (idsForest (rudForest s l).1) (idsForest l)
  | .nil => List.Sublist.refl _
  | .cons n t => by
      by_cases hr : (rudNode s n).2 = true
      · rw [rudForest]
        simp only [hr, if_pos]
        cases hm : (rudNode s n).1 with
        | some m =>
            simp only [idsForest]
            exact List.Sublist.append (idsNode_rud_sublist s n m hm)
              (List.Sublist.refl _)
        | none =>
            simp only [idsForest]
            exact List.sublist_append_of_sublist_right (List.Sublist.refl _)
      · rw [rudForest]
        simp only [hr, if_neg, Bool.false_eq_true, not_false_eq_true, idsForest]
        exact List.Sublist.append (List.Sublist.refl _)
          (idsForest_rud_sublist s t)

end

mutual

theorem idsNode_cattr : ∀ n : XNode, idsNode (cattrNode n) = idsNode n
  | .elem ns tag attrs cs => by
      have h1 : (getAttr (cleanAttrList attrs) "id").getD "" =
          (getAttr attrs "id").getD "" := by
        have := idAttr_cleanAttrList attrs
        simpa [idAttr] using this
      simp [cattrNode, idsNode, h1, idsForest_cattr cs]
  | .text s => rfl
  | .comment s => rfl

theorem idsForest_cattr : ∀ l : XNodes, idsForest (cattrForest l) = idsForest l
  | .nil => rfl
  | .cons n t => by simp [cattrForest, idsForest, idsNode_cattr n, idsForest_cattr t]

end

mutual

theorem idsNode_opath : ∀ n : XNode, idsNode (opathNode n) = idsNode n
  | .elem ns tag attrs cs => by
      have h1 : (getAttr (if tag = "path" then updateDAttr attrs else attrs)
          "id").getD "" = (getAttr attrs "id").getD "" := by
        by_cases hp : tag = "path"
        · simp only [hp, if_pos]
          have := idAttr_updateD attrs
          simpa [idAttr] using this
        · simp [hp]
      simp [opathNode, idsNode, h1, idsForest_opath cs]
  | .text s => rfl
  | .comment s => rfl

theorem idsForest_opath : ∀ l : XNodes, idsForest (opathForest l) = idsForest l
  | .nil => rfl
  | .cons n t => by simp [opathForest, idsForest, idsNode_opath n, idsForest_opath t]

end

theorem treeIds_pruneRoot (d : XNode → Bool) (t : XNode) :
    List.Sublist (treeIds (t.withChildren (pruneForest d t.childrenOf)))
      (treeIds t) := by
  cases t with
  | elem ns tag attrs cs =>
      simp only [XNode.withChildren, XNode.childrenOf, treeIds, idsNode]
      exact List.Sublist.append (List.Sublist.refl _)
        (idsForest_prune_sublist d cs)
  | text s => exact List.Sublist.refl _
  | comment s => exact List.Sublist.refl _

theorem treeIds_rud (t : XNode) :
    List.Sublist (treeIds (removeUnusedDefs t)) (treeIds t) := by
  rw [removeUnusedDefs]
  by_cases h : occTag "defs" t.childrenOf = true
  · rw [if_pos h]
    cases t with
    | elem ns tag attrs cs =>
        simp only [XNode.withChildren, XNode.childrenOf, treeIds, idsNode]
        exact List.Sublist.append (List.Sublist.refl _)
          (idsForest_rud_sublist _ cs)
    | text s => exact List.Sublist.refl _
    | comment s => exact List.Sublist.refl _
  · rw [if_neg h]

theorem treeIds_cattr (t : XNode) :
    treeIds (cleanAttributes t) = treeIds t :=
  idsNode_cattr t

theorem treeIds_opath (t : XNode) :
    treeIds (optimizePaths t) = treeIds t := by
  cases t with
  | elem ns tag attrs cs =>
      simp only [optimizePaths, XNode.withChildren, XNode.childrenOf, treeIds,
        idsNode, idsForest_opath]
  | text s => rfl
  | comment s => rfl

theorem getAttr_none_of_any_false (name : String) :
    ∀ attrs : List (String × String),
      attrs.any (fun p => p.1 = name) = false → getAttr attrs name = none
  | [], _ => rfl
  | (k, v) :: t, h => by
      simp only [List.any_cons, Bool.or_eq_false_iff] at h
      have hk : ¬ k = name := by simpa using h.1
      simp [getAttr, hk, getAttr_none_of_any_false name t h.2]

theorem getAttr_map_set_eq (name v : String) :
    ∀ attrs : List (String × String),
      attrs.any (fun p => p.1 = name) = true →
      getAttr (attrs.map (fun p => if p.1 = name then (name, v) else p)) name =
        some v
  | (k, w) :: t, h => by
      by_cases hk : k = name
      · have h2 : List.map (fun p : String × String =>
              if p.1 = name then (name, v) else p) ((k, w) :: t) =
            (name, v) :: List.map (fun p : String × String =>
              if p.1 = name then (name, v) else p) t := by simp [hk]
        rw [h2]
        simp [getAttr]
      · have h2 : List.map (fun p : String × String =>
              if p.1 = name then (name, v) else p) ((k, w) :: t) =
            (k, w) :: List.map (fun p : String × String =>
              if p.1 = name then (name, v) else p) t := by simp [hk]
        rw [h2]
        simp only [List.any_cons, Bool.or_eq_true_iff] at h
        rcases h with h1 | h1
        · exact absurd (by simpa using h1) hk
        · simp only [getAttr, hk, if_neg]
          exact getAttr_map_set_eq name v t h1

theorem getAttr_setAttr_eq (attrs : List (String × String)) (name v : String) :
    getAttr (setAttr attrs name v) name = some v := by
  unfold setAttr
  by_cases ha : attrs.any (fun p => p.1 = name) = true
  · rw [if_pos ha]
    exact getAttr_map_set_eq name v attrs ha
  · rw [if_neg ha]
    rw [getAttr_append_none name attrs _
      (getAttr_none_of_any_false name attrs
        (by simpa only [Bool.not_eq_true] using ha))]
    simp [getAttr]

theorem genId_ne_empty (s : String) : ("id-" ++ s) ≠ "" := by
  intro h
  have h2 := congrArg String.data h
  rw [String.data_append] at h2
  simp at h2

theorem genId_inj {a b : String} (h : "id-" ++ a = "id-" ++ b) : a = b := by
  have h2 := congrArg String.data h
  rw [String.data_append, String.data_append] at h2
  exact String.ext (List.append_cancel_left h2)

mutual

theorem eidNode_allIds (gen : Nat → String) :
    ∀ (n : XNode) (k : Nat), allIdsSetNode (eidNode gen n k).1 = true
  | .elem ns tag attrs cs, k => by
      by_cases hc : (getAttr attrs "id").getD "" = ""
      · simp only [eidNode, hc, if_pos]
        simp only [allIdsSetNode]
        rw [getAttr_setAttr_eq attrs "id" ("id-" ++ gen k)]
        simp [genId_ne_empty, eidForest_allIds gen cs (k + 1)]
      · simp only [eidNode, hc, if_neg]
        simp only [allIdsSetNode]
        simp [hc, eidForest_allIds gen cs k]
  | .text s, _ => rfl
  | .comment s, _ => rfl

theorem eidForest_allIds (gen : Nat → String) :
    ∀ (l : XNodes) (k : Nat), allIdsSetForest (eidForest gen l k).1 = true
  | .nil, _ => rfl
  | .cons n t, k => by
      simp [eidForest, allIdsSetForest, eidNode_allIds gen n k,
        eidForest_allIds gen t (eidNode gen n k).2]

end

mutual

theorem eidNode_counter_le (gen : Nat → String) :
    ∀ (n : XNode) (k : Nat), k ≤ (eidNode gen n k).2
  | .elem ns tag attrs cs, k => by
      by_cases hc : (getAttr attrs "id").getD "" = ""
      · simp only [eidNode, hc, if_pos]
        exact le_trans (Nat.le_succ k) (eidForest_counter_le gen cs (k + 1))
      · simp only [eidNode, hc, if_neg]
        exact eidForest_counter_le gen cs k
  | .text s, k => le_refl k
  | .comment s, k => le_refl k

theorem eidForest_counter_le (gen : Nat → String) :
    ∀ (l : XNodes) (k : Nat), k ≤ (eidForest gen l k).2
  | .nil, k => le_refl k
  | .cons n t, k => by
      simp only [eidForest]
      exact le_trans (eidNode_counter_le gen n k)
        (eidForest_counter_le gen t (eidNode gen n k).2)

end

mutual

theorem eidNode_ids_mem (gen : Nat → String) :
    ∀ (n : XNode) (k : Nat) (i : String), i ∈ idsNode (eidNode gen n k).1 →
      i ∈ idsNode n ∨
        ∃ j, k ≤ j ∧ j < (eidNode gen n k).2 ∧ i = "id-" ++ gen j
  | .elem ns tag attrs cs, k, i => by
      intro hi
      by_cases hc : (getAttr attrs "id").getD "" = ""
      · have hA2 : (getAttr (setAttr attrs "id" ("id-" ++ gen k)) "id").getD ""
            = "id-" ++ gen k := by
          rw [getAttr_setAttr_eq]
          rfl
        simp only [eidNode, hc, if_pos] at hi ⊢
        simp only [idsNode, hA2, genId_ne_empty (gen k), if_neg,
          not_false_eq_true, List.mem_append, List.mem_singleton] at hi
        rcases hi with h1 | h1
        · refine Or.inr ⟨k, le_refl k, ?_, h1⟩
          exact lt_of_lt_of_le (Nat.lt_succ_self k)
            (eidForest_counter_le gen cs (k + 1))
        · rcases eidNode_ids_mem_forest gen cs (k + 1) i h1 with h2 | ⟨j, hj1, hj2, hj3⟩
          · exact Or.inl (by simp [idsNode, List.mem_append, h2])
          · exact Or.inr ⟨j, le_trans (Nat.le_succ k) hj1, hj2, hj3⟩
      · simp only [eidNode, hc, if_neg] at hi ⊢
        simp only [idsNode, List.mem_append] at hi
        rcases hi with h1 | h1
        · exact Or.inl (by simp [idsNode, List.mem_append]; exact Or.inl (by simpa using h1))
        · rcases eidNode_ids_mem_forest gen cs k i h1 with h2 | ⟨j, hj1, hj2, hj3⟩
          · exact Or.inl (by simp [idsNode, List.mem_append, h2])
          · exact Or.inr ⟨j, hj1, hj2, hj3⟩
  | .text s, k, i => by
      intro hi
      exact Or.inl hi
  | .comment s, k, i => by
      intro hi
      exact Or.inl hi

theorem eidNode_ids_mem_forest (gen : Nat → String) :
    ∀ (l : XNodes) (k : Nat) (i : String), i ∈ idsForest (eidForest gen l k).1 →
      i ∈ idsForest l ∨
        ∃ j, k ≤ j ∧ j < (eidForest gen l k).2 ∧ i = "id-" ++ gen j
  | .nil, k, i => by
      intro hi
      exact Or.inl hi
  | .cons n t, k, i => by
      intro hi
      simp only [eidForest, idsForest, List.mem_append] at hi ⊢
      rcases hi with h1 | h1
      · rcases eidNode_ids_mem gen n k i h1 with h2 | ⟨j, hj1, hj2, hj3⟩
        · exact Or.inl (Or.inl h2)
        · refine Or.inr ⟨j, hj1, ?_, hj3⟩
          exact lt_of_lt_of_le hj2
            (eidForest_counter_le gen t (eidNode gen n k).2)
      · rcases eidNode_ids_mem_forest gen t (eidNode gen n k).2 i h1 with
          h2 | ⟨j, hj1, hj2, hj3⟩
        · exact Or.inl (Or.inr h2)
        · exact Or.inr ⟨j, le_trans (eidNode_counter_le gen n k) hj1, hj2, hj3⟩

end

mutual

theorem eidNode_ids_nodup (gen : Nat → String)
    (hinj : ∀ i j : Nat, gen i = gen j → i = j) :
    ∀ (n : XNode) (k : Nat), (idsNode n).Nodup →
      (∀ j, ("id-" ++ gen j) ∉ idsNode n) →
      (idsNode (eidNode gen n k).1).Nodup
  | .elem ns tag attrs cs, k, hnd, hfr => by
      have hndcs : (idsForest cs).Nodup := by
        have h0 : (idsNode (XNode.elem ns tag attrs cs)).Nodup := hnd
        simp only [idsNode] at h0
        exact h0.of_append_right
      have hfrcs : ∀ j, ("id-" ++ gen j) ∉ idsForest cs := by
        intro j hj
        exact hfr j (by simp [idsNode, List.mem_append, hj])
      by_cases hc : (getAttr attrs "id").getD "" = ""
      · have hA2 : (getAttr (setAttr attrs "id" ("id-" ++ gen k)) "id").getD ""
            = "id-" ++ gen k := by
          rw [getAttr_setAttr_eq]
          rfl
        simp only [eidNode, hc, if_pos]
        simp only [idsNode, hA2, genId_ne_empty (gen k), if_neg,
          not_false_eq_true]
        refine List.nodup_append.mpr
          ⟨List.nodup_singleton _,
           eidForest_ids_nodup gen hinj cs (k + 1) hndcs hfrcs, ?_⟩
        intro a ha hb
        simp only [List.mem_singleton] at ha
        subst ha
        rcases eidNode_ids_mem_forest gen cs (k + 1) _ hb with
          h2 | ⟨j, hj1, hj2, hj3⟩
        · exact hfrcs k h2
        · have hkj : k = j := hinj k j (genId_inj hj3)
          omega
      · simp only [eidNode, hc, if_neg]
        simp only [idsNode, hc, if_neg, not_false_eq_true]
        refine List.nodup_append.mpr
          ⟨List.nodup_singleton _,
           eidForest_ids_nodup gen hinj cs k hndcs hfrcs, ?_⟩
        intro a ha hb
        simp only [List.mem_singleton] at ha
        subst ha
        rcases eidNode_ids_mem_forest gen cs k _ hb with
          h2 | ⟨j, hj1, hj2, hj3⟩
        · have h0 : (idsNode (XNode.elem ns tag attrs cs)).Nodup := hnd
          simp only [idsNode, hc, if_neg, not_false_eq_true] at h0
          exact (List.nodup_append.mp h0).2.2 (List.mem_singleton_self _) h2
        · exact hfr j (by
            rw [← hj3]
            simp [idsNode, hc, List.mem_append])
  | .text s, _, _, _ => List.nodup_nil
  | .comment s, _, _, _ => List.nodup_nil

theorem eidForest_ids_nodup (gen : Nat → String)
    (hinj : ∀ i j : Nat, gen i = gen j → i = j) :
    ∀ (l : XNodes) (k : Nat), (idsForest l).Nodup →
      (∀ j, ("id-" ++ gen j) ∉ idsForest l) →
      (idsForest (eidForest gen l k).1).Nodup
  | .nil, _, _, _ => List.nodup_nil
  | .cons n t, k, hnd, hfr => by
      have h0 : (idsNode n ++ idsForest t).Nodup := by simpa [idsForest] using hnd
      have hdisj := (List.nodup_append.mp h0).2.2
      have hfrn : ∀ j, ("id-" ++ gen j) ∉ idsNode n := by
        intro j hj
        exact hfr j (by simp [idsForest, List.mem_append, hj])
      have hfrt : ∀ j, ("id-" ++ gen j) ∉ idsForest t := by
        intro j hj
        exact hfr j (by simp [idsForest, List.mem_append, hj])
      simp only [eidForest, idsForest]
      refine List.nodup_append.mpr
        ⟨eidNode_ids_nodup gen hinj n k h0.of_append_left hfrn,
         eidForest_ids_nodup gen hinj t (eidNode gen n k).2
           h0.of_append_right hfrt, ?_⟩
      intro a ha hb
      rcases eidNode_ids_mem gen n k a ha with h1 | ⟨j1, hj11, hj12, hj13⟩
      · rcases eidNode_ids_mem_forest gen t (eidNode gen n k).2 a hb with
          h2 | ⟨j2, hj21, hj22, hj23⟩
        · exact hdisj h1 h2
        · exact hfrn j2 (by rw [← hj23]; exact h1)
      · rcases eidNode_ids_mem_forest gen t (eidNode gen n k).2 a hb with
          h2 | ⟨j2, hj21, hj22, hj23⟩
        · exact hfrt j1 (by rw [← hj13]; exact h2)
        · have : j1 = j2 := hinj j1 j2 (genId_inj (hj13.symm.trans hj23))
          omega

end

theorem ensureIds_allIds (gen : Nat → String) (t : XNode) :
    allIdsSetForest ((ensureIds gen t).childrenOf) = true := by
  cases t with
  | elem ns tag attrs cs =>
      simp only [ensureIds, XNode.withChildren, XNode.childrenOf]
      exact eidForest_allIds gen cs 0
  | text s => rfl
  | comment s => rfl

theorem ensureIds_nodup (gen : Nat → String) (t : XNode)
    (hinj : ∀ i j : Nat, gen i = gen j → i = j)
    (hnd : (treeIds t).Nodup)
    (hfr : ∀ j, ("id-" ++ gen j) ∉ treeIds t) :
    (treeIds (ensureIds gen t)).Nodup := by
  cases t with
  | elem ns tag attrs cs =>
      have h0 : (idsNode (XNode.elem ns tag attrs cs)).Nodup := hnd
      simp only [idsNode] at h0
      have hndcs : (idsForest cs).Nodup := h0.of_append_right
      have hfrcs : ∀ j, ("id-" ++ gen j) ∉ idsForest cs := by
        intro j hj
        exact hfr j (by simp [treeIds, idsNode, List.mem_append, hj])
      simp only [ensureIds, XNode.withChildren, XNode.childrenOf, treeIds,
        idsNode]
      refine List.nodup_append.mpr
        ⟨h0.of_append_left,
         eidForest_ids_nodup gen hinj cs 0 hndcs hfrcs, ?_⟩
      intro a ha hb
      rcases eidNode_ids_mem_forest gen cs 0 a hb with h2 | ⟨j, _, _, hj3⟩
      · exact (List.nodup_append.mp h0).2.2 ha h2
      · refine hfr j ?_
        rw [← hj3]
        simp only [treeIds, idsNode, List.mem_append]
        exact Or.inl ha
  | text s => exact List.nodup_nil
  | comment s => exact List.nodup_nil

/-- C7 amended: under the hypotheses the code itself never checks —
the input's identifiers are pairwise distinct, the generator's outputs
are pairwise distinct and collide with no pre-existing identifier —
`cleanSvg` gives every non-root element a non-empty identifier and the
result's identifiers are unique. -/
theorem claim7_ids_unique
    (gen : Nat → String) (T : XNode)
    (hinj : ∀ i j : Nat, gen i = gen j → i = j)
    (hnd : (treeIds T).Nodup)
    (hfresh : ∀ j, ("id-" ++ gen j) ∉ treeIds T) :
    allIdsSetForest ((cleanSvg gen T).childrenOf) = true ∧
      (treeIds (cleanSvg gen T)).Nodup := by
  have s1 : List.Sublist (treeIds (removeEmptyGroups (cloneNode T)))
      (treeIds T) := treeIds_pruneRoot dropEmptyGroup T
  have s2 := (treeIds_pruneRoot dropEmptyElement
    (removeEmptyGroups (cloneNode T))).trans s1
  have s3 := (treeIds_rud (removeEmptyElements
    (removeEmptyGroups (cloneNode T)))).trans s2
  have s4 := (treeIds_pruneRoot XNode.isComment (removeUnusedDefs
    (removeEmptyElements (removeEmptyGroups (cloneNode T))))).trans s3
  have s5 := (treeIds_pruneRoot dropNonSvg (removeComments (removeUnusedDefs
    (removeEmptyElements (removeEmptyGroups (cloneNode T)))))).trans s4
  have s6 : List.Sublist (treeIds (cleanAttributes (removeNonSvgElements
      (removeComments (removeUnusedDefs (removeEmptyElements
        (removeEmptyGroups (cloneNode T)))))))) (treeIds T) := by
    rw [treeIds_cattr]
    exact s5
  have s7 : List.Sublist (treeIds (optimizePaths (cleanAttributes
      (removeNonSvgElements (removeComments (removeUnusedDefs
        (removeEmptyElements (removeEmptyGroups (cloneNode T)))))))))
      (treeIds T) := by
    rw [treeIds_opath]
    exact s6
  constructor
  · exact ensureIds_allIds gen _
  · refine ensureIds_nodup gen _ hinj (hnd.sublist s7) ?_
    intro j hj
    exact hfresh j (s7.subset hj)

/-- Witness for the C7 amendment: a document without pre-existing ids
and an injective, collision-free generator stream. -/
theorem claim7_ids_unique_witness :
    allIdsSetForest ((cleanSvg
      (fun k => String.mk (List.replicate (k + 1) 'a'))
      (.elem svgNamespace "svg" []
        (.cons (.elem svgNamespace "rect" [("x", "1")] .nil)
          (.cons (.elem svgNamespace "circle" [("cx", "2")] .nil)
            .nil)))).childrenOf) = true ∧
      (treeIds (cleanSvg
        (fun k => String.mk (List.replicate (k + 1) 'a'))
        (.elem svgNamespace "svg" []
          (.cons (.elem svgNamespace "rect" [("x", "1")] .nil)
            (.cons (.elem svgNamespace "circle" [("cx", "2")] .nil)
              .nil))))).Nodup :=
  claim7_ids_unique _ _
    (fun i j h => by
      have h2 : List.replicate (i + 1) 'a' = List.replicate (j + 1) 'a' :=
        congrArg String.data h
      have h3 := congrArg List.length h2
      simp only [List.length_replicate] at h3
      omega)
    (by decide)
    (fun j hj => by
      have h0 : treeIds (XNode.elem svgNamespace "svg" []
          (.cons (.elem svgNamespace "rect" [("x", "1")] .nil)
            (.cons (.elem svgNamespace "circle" [("cx", "2")] .nil)
              .nil))) = [] := by decide
      rw [h0] at hj
      exact absurd hj (List.not_mem_nil _))
